import Mathlib

/-!
Verification of `src/assets/create_assets.py` (RINGING "Frozen Silence" asset
generator) against its natural-language specification.

Shallow embedding conventions:
* Machine integers are `ℕ`/`ℤ`; Python `int(x)` on a non-negative value is the
  mathematical floor, which for the non-negative rational values arising here
  is `ℕ` floor division.
* The global `random` stream is modelled by explicitly passed functions
  (e.g. `ℕ → ℕ → ℤ` giving the delta drawn at pixel `(i, j)`), universally
  quantified and constrained to the interval the corresponding
  `random.randint` call draws from.
* Side effects (drawing, noise pass, file save) of `create_ui_texture` are
  modelled as an explicit effect record, since the claims speak about which
  effects happen.
* The float expression `int(30 * (dist / max_dist))` of the inventory style,
  read in exact real arithmetic, is
  `⌊30·√d2/√m2⌋ = ⌊√(900·d2/m2)⌋ = Nat.sqrt (900 * d2 / m2)`
  (`⌊√x⌋ = Nat.sqrt ⌊x⌋` for `x ≥ 0`), which is the computable form used here.
* `math.sin` is idealised as `Real.sin` (exact real semantics of the formula).
-/

namespace CreateAssets

/-- Clamp an integer channel value to `[0, 255]`: `max(0, min(255, x))`. -/
def clamp255 (x : ℤ) : ℤ := max 0 (min 255 x)

/-- A pixel as `add_noise` sees it: three colour channels, and an optional
alpha channel (`pixels[i, j]` has length 3 or 4). -/
@[ext]
structure Px where
  r : ℤ
  g : ℤ
  b : ℤ
  a : Option ℤ
  deriving DecidableEq, Repr

/-- All three colour channels of a pixel lie in `[0, 255]`. -/
def Px.inRange (p : Px) : Prop :=
  0 ≤ p.r ∧ p.r ≤ 255 ∧ 0 ≤ p.g ∧ p.g ≤ 255 ∧ 0 ≤ p.b ∧ p.b ≤ 255

instance (p : Px) : Decidable p.inRange := by
  unfold Px.inRange; infer_instance

/-- One pixel step of `add_noise`: the single delta `δ` drawn by
`random.randint(-intensity, intensity)` is added to each of r, g, b, each
clamped to `[0, 255]`; the alpha channel, when present, is kept. -/
def addNoisePx (δ : ℤ) (p : Px) : Px :=
  { r := clamp255 (p.r + δ)
    g := clamp255 (p.g + δ)
    b := clamp255 (p.b + δ)
    a := p.a }

/-- `add_noise(img, intensity)`: every pixel `(i, j)` of the `width × height`
image gets `addNoisePx` applied with the delta `noise i j` drawn at that
pixel. -/
def addNoise (width height : ℕ) (noise : ℕ → ℕ → ℤ) (img : ℕ → ℕ → Px) :
    ℕ → ℕ → Px :=
  fun i j => if i < width ∧ j < height then addNoisePx (noise i j) (img i j) else img i j

/-- One interpolated channel of `create_gradient` at line index `i` of `n`
lines: `int(c1 * (1 - i/n) + c2 * (i/n))`, which in exact arithmetic is
`⌊(c1 * (n - i) + c2 * i) / n⌋`, i.e. `ℕ` floor division. -/
def gradChan (c1 c2 n i : ℕ) : ℕ :=
  (c1 * (n - i) + c2 * i) / n

/-- `create_gradient(width, height, color1, color2, direction)` as a pixel
function: the pixel at `(x, y)` lies on line `i = y` (vertical) or `i = x`
(otherwise), out of `n = height` (vertical) or `n = width` lines. -/
def createGradient (width height : ℕ) (c1 c2 : ℕ × ℕ × ℕ) (direction : String) :
    ℕ → ℕ → ℕ × ℕ × ℕ :=
  fun x y =>
    let i := if direction = "vertical" then y else x
    let n := if direction = "vertical" then height else width
    (gradChan c1.1 c2.1 n i, gradChan c1.2.1 c2.2.1 n i, gradChan c1.2.2 c2.2.2 n i)

/-- `create_gradient` with the process-wide random stream threaded through,
in the same shape as the randomized generators: the body of
`create_gradient` contains no call into `random`, so the stream is returned
unconsumed and the image does not depend on it. -/
def createGradientRun (width height : ℕ) (c1 c2 : ℕ × ℕ × ℕ) (direction : String)
    (rng : ℕ → ℤ) : (ℕ → ℕ → ℕ × ℕ × ℕ) × (ℕ → ℤ) :=
  (createGradient width height c1 c2 direction, rng)

/-- The polygon point list built by `draw_building_silhouette`:
`[(x, base_y), (x, top_y)]`, then for `i in range(num_segments + 1)` the
roofline point `(x + i * (width / num_segments), seg_y i)` where
`seg_y i = top_y + randint(-20, 30)`, then the closing `(x + width, base_y)`.
Coordinates are rational since `segment_width = width / num_segments` is a
Python float division. -/
def silhouettePoints (x width baseY topY : ℚ) (numSegments : ℕ) (segY : ℕ → ℚ) :
    List (ℚ × ℚ) :=
  [(x, baseY), (x, topY)] ++
    (List.range (numSegments + 1)).map
      (fun (i : ℕ) => (x + (i : ℚ) * (width / (numSegments : ℚ)), segY i)) ++
    [(x + width, baseY)]

/-- Squared Euclidean distance from `(x, y)` to the integer centre
`(cx, cy) = (width // 2, height // 2)` used by the inventory style:
`(x - center_x)**2 + (y - center_y)**2`. -/
def invDist2 (cx cy x y : ℕ) : ℕ :=
  ((x : ℤ) - (cx : ℤ)).natAbs ^ 2 + ((y : ℤ) - (cy : ℤ)).natAbs ^ 2

/-- The darkening term of the inventory style at `(x, y)`:
`int(30 * (dist / max_dist))` with `dist = sqrt(invDist2 cx cy x y)` and
`max_dist = sqrt(cx² + cy²)`. In exact real arithmetic this floor equals
`⌊√(900 · d2 / m2)⌋ = Nat.sqrt (900 * d2 / m2)` with `ℕ` floor division
(using `⌊√x⌋ = Nat.sqrt ⌊x⌋` for real `x ≥ 0`). -/
def invDarkness (width height x y : ℕ) : ℕ :=
  Nat.sqrt (900 * invDist2 (width / 2) (height / 2) x y /
    ((width / 2) ^ 2 + (height / 2) ^ 2))

/-- One colour channel written by the inventory style at a pixel:
`max(0, base_channel - darkness + random.randint(-5, 5))`. Note the source
applies `max 0` but no upper clamp on this path. -/
def invChannel (base : ℤ) (darkness : ℕ) (dither : ℤ) : ℤ :=
  max 0 (base - (darkness : ℤ) + dither)

/-- The style tags `create_ui_texture` dispatches on (`if style == 'rough'`
/ `elif style == 'brushstroke'` / `elif style == 'inventory'`). -/
def knownStyles : List String := ["rough", "brushstroke", "inventory"]

/-- The observable effects of one `create_ui_texture(name, width, height,
base_color, style)` call: how many style-specific drawing operations ran,
whether the trailing `add_noise` pass ran, and the file saved (if any). -/
structure UiTextureEffects where
  styleDrawOps : ℕ
  noiseApplied : Bool
  savedFile : Option String
  deriving DecidableEq, Repr

/-- Effect trace of `create_ui_texture`: the `if/elif` chain draws only for
the three known styles (and silently draws nothing for any other string);
the `add_noise(img, intensity=8)` call and the `img.save(...)` call follow
unconditionally. Drawing-op counts follow the source loops: `rough` scatters
`width * height // 20` ellipses; `brushstroke` draws `height` lines plus 50
edge notches; `inventory` writes `width * height` pixels plus 20 highlight
lines. -/
def createUiTextureEffects (name : String) (width height : ℕ) (style : String) :
    UiTextureEffects :=
  { styleDrawOps :=
      if style = "rough" then width * height / 20
      else if style = "brushstroke" then height + 50
      else if style = "inventory" then width * height + 20
      else 0
    noiseApplied := true
    savedFile := some (name ++ ".png") }

/-- The wave factor of `create_brush_stroke_speaker` at row `y` of the fixed
`height = 40` canvas: `math.sin((y / height) * math.pi) * 0.3 + 0.7`,
idealised in exact real arithmetic. -/
noncomputable def brushWave (y : ℕ) : ℝ :=
  Real.sin ((y : ℝ) / 40 * Real.pi) * 0.3 + 0.7

/-- The alpha of the span drawn at row `y` with jitter
`jit = random.randint(-20, 20)`:
`alpha = int(220 * wave) + jit; alpha = max(0, min(255, alpha))`. -/
noncomputable def brushAlpha (y : ℕ) (jit : ℤ) : ℤ :=
  max 0 (min 255 (⌊(220 : ℝ) * brushWave y⌋ + jit))

/-- The scene names of the `scenes` dict in `main`, in declaration order. -/
def sceneNames : List String :=
  ["scene_00_home", "scene_01_street", "scene_02_restarea", "scene_03_highway",
   "scene_04_daejeon", "scene_05_shelter", "scene_06_gyeongnam",
   "scene_07_busan_outer", "scene_08_sanctuary", "scene_09_ending"]

/-- The texture names passed to `create_ui_texture` by `main`, in call
order. -/
def uiTextureNames : List String :=
  ["inv_slot", "inv_slot_empty", "btn_texture", "btn_texture_hover",
   "soundbox_texture", "textbox_bg"]

/-- The files `main` writes into `backgrounds/`: one
`create_scene_background` call per scene, each saving `{scene_name}.png`. -/
def mainBackgroundFiles : List String :=
  sceneNames.map (fun n => n ++ ".png")

/-- The files `main` writes into `textures/`: one `create_ui_texture` call
per declared texture (each saving `{name}.png`), then
`create_brush_stroke_speaker` saving `speaker_brush.png`. -/
def mainTextureFiles : List String :=
  uiTextureNames.map (fun n => n ++ ".png") ++ ["speaker_brush.png"]

/-- Two channel values agree within ±1: `|a - b| ≤ 1` on `ℕ`. -/
def chanClose (a b : ℕ) : Prop := b ≤ a + 1 ∧ a ≤ b + 1

instance (a b : ℕ) : Decidable (chanClose a b) := by
  unfold chanClose; infer_instance

/-- Two colors agree within ±1 on every channel. -/
def colorClose (p q : ℕ × ℕ × ℕ) : Prop :=
  chanClose p.1 q.1 ∧ chanClose p.2.1 q.2.1 ∧ chanClose p.2.2 q.2.2

instance (p q : ℕ × ℕ × ℕ) : Decidable (colorClose p q) := by
  unfold colorClose; infer_instance

/-- Every channel of the two colors differs by at most `n`. -/
def colorDiffLe (p q : ℕ × ℕ × ℕ) (n : ℕ) : Prop :=
  (p.1 ≤ q.1 + n ∧ q.1 ≤ p.1 + n) ∧ (p.2.1 ≤ q.2.1 + n ∧ q.2.1 ≤ p.2.1 + n) ∧
  (p.2.2 ≤ q.2.2 + n ∧ q.2.2 ≤ p.2.2 + n)

instance (p q : ℕ × ℕ × ℕ) (n : ℕ) : Decidable (colorDiffLe p q n) := by
  unfold colorDiffLe; infer_instance

/-! ## Helper lemmas -/

/-- The first gradient line (`i = 0`, ratio `0`) reproduces `color1`
exactly. -/
theorem gradChan_zero (c1 c2 n : ℕ) (hn : 0 < n) : gradChan c1 c2 n 0 = c1 := by
  unfold gradChan
  simp only [Nat.sub_zero, Nat.mul_zero, Nat.add_zero]
  exact Nat.mul_div_cancel c1 hn

/-- The last gradient line (`i = n - 1`) is within ±1 of `color2` provided
the channel difference is at most `n`; in general it equals
`c2 + ⌊(c1 - c2) / n⌋`. -/
theorem gradChan_last (c1 c2 n : ℕ) (hn : 0 < n) (h1 : c1 ≤ c2 + n)
    (h2 : c2 ≤ c1 + n) : chanClose (gradChan c1 c2 n (n - 1)) c2 := by
  obtain ⟨m, rfl⟩ : ∃ m, n = m + 1 := ⟨n - 1, by omega⟩
  unfold gradChan chanClose
  have hE : c1 * (m + 1 - (m + 1 - 1)) + c2 * (m + 1 - 1) = c1 + c2 * m := by
    simp
  rw [hE]
  constructor
  · -- c2 ≤ (c1 + c2 * m) / (m + 1) + 1
    cases c2 with
    | zero => exact Nat.zero_le _
    | succ d =>
      have hmul : d * (m + 1) ≤ c1 + (d + 1) * m := by
        have e1 : d * (m + 1) = d * m + d := by ring
        have e2 : (d + 1) * m = d * m + m := by ring
        omega
      have hdiv := (Nat.le_div_iff_mul_le (k := m + 1) (by omega)).mpr hmul
      omega
  · -- (c1 + c2 * m) / (m + 1) ≤ c2 + 1
    have e2 : (c2 + 1) * (m + 1) = c2 * m + c2 + m + 1 := by ring
    have hmul : c1 + c2 * m ≤ (c2 + 1) * (m + 1) := by omega
    have hdiv := Nat.div_le_div_right (c := m + 1) hmul
    rw [Nat.mul_div_cancel (c2 + 1) (by omega)] at hdiv
    omega

/-- Characterisation used to evaluate `Nat.sqrt` on concrete arguments. -/
theorem sqrt_eq_of (a n : ℕ) (h1 : a * a ≤ n) (h2 : n < (a + 1) * (a + 1)) :
    Nat.sqrt n = a :=
  (Nat.eq_sqrt.mpr ⟨h1, h2⟩).symm

/-- Concrete evaluation: the darkening term at the corner `(0, 0)` of the
64×64 inventory canvas is 30. -/
theorem invDarkness_64_corner : invDarkness 64 64 0 0 = 30 := by
  have h : invDarkness 64 64 0 0 = Nat.sqrt 900 := by
    unfold invDarkness
    congr 1
  rw [h]
  exact sqrt_eq_of 30 900 (by norm_num) (by norm_num)

/-- Concrete evaluation: the darkening term at `(63, 63)` of the 64×64
inventory canvas is 29. -/
theorem invDarkness_64_opp : invDarkness 64 64 63 63 = 29 := by
  have h : invDarkness 64 64 63 63 = Nat.sqrt 844 := by
    unfold invDarkness
    congr 1
  rw [h]
  exact sqrt_eq_of 29 844 (by norm_num) (by norm_num)

/-- Concrete evaluation: the darkening term at the centre `(32, 32)` of the
64×64 inventory canvas is 0. -/
theorem invDarkness_64_center : invDarkness 64 64 32 32 = 0 := by
  have h : invDarkness 64 64 32 32 = Nat.sqrt 0 := by
    unfold invDarkness
    congr 1
  rw [h, Nat.sqrt_zero]

/-- Unfolding `create_gradient` along the vertical axis: the pixel at
`(x, y)` takes its color from line `i = y` of `n = height`. -/
theorem createGradient_vertical (width height : ℕ) (c1 c2 : ℕ × ℕ × ℕ)
    (x y : ℕ) :
    createGradient width height c1 c2 "vertical" x y =
      (gradChan c1.1 c2.1 height y, gradChan c1.2.1 c2.2.1 height y,
        gradChan c1.2.2 c2.2.2 height y) := rfl

/-- Unfolding `create_gradient` along the horizontal axis: the pixel at
`(x, y)` takes its color from line `i = x` of `n = width`. -/
theorem createGradient_horizontal (width height : ℕ) (c1 c2 : ℕ × ℕ × ℕ)
    (x y : ℕ) :
    createGradient width height c1 c2 "horizontal" x y =
      (gradChan c1.1 c2.1 width x, gradChan c1.2.1 c2.2.1 width x,
        gradChan c1.2.2 c2.2.2 width x) := by
  have h : ("horizontal" = "vertical") = False := by simp
  simp [createGradient, h]

/-! ## Theorems -/

/-- C1 (counterexample): the claim "an unrecognized style tag fails before
any pixel is written: no noise pass runs and no output file is created" is
false on the code: for the unknown style `"weathered"`, `create_ui_texture`
still runs the noise pass and still saves `inv_slot.png`. -/
theorem c1_unknown_style_counterexample :
    "weathered" ∉ knownStyles ∧
    ¬ ((createUiTextureEffects "inv_slot" 64 64 "weathered").noiseApplied = false ∧
       (createUiTextureEffects "inv_slot" 64 64 "weathered").savedFile = none) := by
  decide

/-- C1 (amended): for any style tag not among `rough`, `brushstroke`,
`inventory`, `create_ui_texture` performs no style-specific drawing, but it
does not fail: the `add_noise` pass still runs and the output file
`{name}.png` is still created (a base-color-plus-noise texture). -/
theorem c1_unknown_style_noise_and_save (name : String) (width height : ℕ)
    (style : String) (hstyle : style ∉ knownStyles) :
    (createUiTextureEffects name width height style).styleDrawOps = 0 ∧
    (createUiTextureEffects name width height style).noiseApplied = true ∧
    (createUiTextureEffects name width height style).savedFile =
      some (name ++ ".png") := by
  simp only [knownStyles, List.mem_cons, List.not_mem_nil, or_false, not_or] at hstyle
  obtain ⟨h1, h2, h3⟩ := hstyle
  simp [createUiTextureEffects, h1, h2, h3]

/-- C1 witness: the amended statement at the concrete unknown style
`"weathered"`. -/
theorem c1_unknown_style_noise_and_save_witness :
    "weathered" ∉ knownStyles ∧
    ((createUiTextureEffects "inv_slot" 64 64 "weathered").styleDrawOps = 0 ∧
     (createUiTextureEffects "inv_slot" 64 64 "weathered").noiseApplied = true ∧
     (createUiTextureEffects "inv_slot" 64 64 "weathered").savedFile =
       some ("inv_slot" ++ ".png")) :=
  ⟨by decide, c1_unknown_style_noise_and_save "inv_slot" 64 64 "weathered" (by decide)⟩

/-- C7: `main` generates exactly 10 distinct scene background files in
`backgrounds/` and exactly 7 distinct texture files in `textures/`
(6 declared textures plus the brush stroke), no extras, no missing
entries. -/
theorem c7_main_file_counts :
    mainBackgroundFiles.length = 10 ∧ mainBackgroundFiles.Nodup ∧
    mainTextureFiles.length = 7 ∧ mainTextureFiles.Nodup := by
  decide

/-- C8: `create_gradient` is deterministic: it makes no call into the
`random` stream, so with the stream threaded through explicitly, two runs
from arbitrary (possibly different) stream states produce identical pixel
buffers, and the stream is returned unconsumed. -/
theorem c8_gradient_deterministic (width height : ℕ) (c1 c2 : ℕ × ℕ × ℕ)
    (direction : String) (rng₁ rng₂ : ℕ → ℤ) :
    (createGradientRun width height c1 c2 direction rng₁).1 =
      (createGradientRun width height c1 c2 direction rng₂).1 ∧
    (createGradientRun width height c1 c2 direction rng₁).2 = rng₁ :=
  ⟨rfl, rfl⟩

/-- C4 (counterexample): on the 64×64 inventory canvas actually used by the
program, the darkening term is not 180°-rotation symmetric: at `(0, 0)` it
is 30, but at the rotated point `(63, 63)` it is 29 (the integer centre
`(32, 32)` of an even-sized canvas is not the geometric centre). -/
theorem c4_even_square_counterexample :
    invDarkness 64 64 0 0 = 30 ∧ invDarkness 64 64 (64 - 1 - 0) (64 - 1 - 0) = 29 ∧
    invDarkness 64 64 0 0 ≠ invDarkness 64 64 (64 - 1 - 0) (64 - 1 - 0) := by
  have h0 := invDarkness_64_corner
  have h1 : invDarkness 64 64 (64 - 1 - 0) (64 - 1 - 0) = 29 := invDarkness_64_opp
  exact ⟨h0, h1, by omega⟩

/-- C4 (amended): on a square canvas of odd side `w`, the darkening term of
the inventory style is 180°-rotation symmetric:
`invDarkness w w x y = invDarkness w w (w-1-x) (w-1-y)` for every pixel;
for even `w` (such as the 64×64 slots the program generates) the symmetry
can fail by one unit. -/
theorem c4_odd_square_rotation_symmetric (w x y : ℕ) (hodd : w % 2 = 1)
    (hx : x < w) (hy : y < w) :
    invDarkness w w (w - 1 - x) (w - 1 - y) = invDarkness w w x y := by
  have ex : (((w - 1 - x : ℕ) : ℤ) - ((w / 2 : ℕ) : ℤ)).natAbs
      = (((x : ℕ) : ℤ) - ((w / 2 : ℕ) : ℤ)).natAbs := by omega
  have ey : (((w - 1 - y : ℕ) : ℤ) - ((w / 2 : ℕ) : ℤ)).natAbs
      = (((y : ℕ) : ℤ) - ((w / 2 : ℕ) : ℤ)).natAbs := by omega
  unfold invDarkness invDist2
  rw [ex, ey]

/-- C4 witness: the amended symmetry at the concrete odd canvas `w = 65`,
pixel `(0, 0)` (rotated pixel `(64, 64)`). -/
theorem c4_odd_square_rotation_symmetric_witness :
    invDarkness 65 65 (65 - 1 - 0) (65 - 1 - 0) = invDarkness 65 65 0 0 :=
  c4_odd_square_rotation_symmetric 65 0 0 (by decide) (by decide) (by decide)

/-- C5 (counterexample): the inventory style's shading is *not* clamped to
255: at the canvas centre (darkness 0) with base channel 255 and the
dither +5 (drawn by `random.randint(-5, 5)`), the written channel value is
260 > 255 (the source applies `max(0, ·)` but no upper clamp). -/
theorem c5_no_upper_clamp_counterexample :
    invChannel 255 (invDarkness 64 64 32 32) 5 = 260 ∧
    ¬ invChannel 255 (invDarkness 64 64 32 32) 5 ≤ 255 := by
  rw [invDarkness_64_center]
  refine ⟨by decide, by decide⟩

/-- C5 (amended): each channel written by the inventory radial shading is
bounded below by 0 and above by `base + 5`; it lies in `[0, 255]` whenever
the base channel is at most 250 — which holds for every base color `main`
passes to the inventory style — but for base channels ≥ 251 it can exceed
255, since this path has no upper clamp. -/
theorem c5_inv_channel_bounds (base : ℤ) (darkness : ℕ) (dither : ℤ)
    (hb0 : 0 ≤ base) (hd1 : -5 ≤ dither) (hd2 : dither ≤ 5) :
    0 ≤ invChannel base darkness dither ∧
    invChannel base darkness dither ≤ base + 5 ∧
    (base ≤ 250 → invChannel base darkness dither ≤ 255) := by
  unfold invChannel
  omega

/-- C5 witness: the amended bounds at the concrete inventory call
`base = 60` (the red channel of `earth_brown`), darkness at pixel `(0, 0)`
of the 64×64 slot, dither `-5`. -/
theorem c5_inv_channel_bounds_witness :
    0 ≤ invChannel 60 (invDarkness 64 64 0 0) (-5) ∧
    invChannel 60 (invDarkness 64 64 0 0) (-5) ≤ 60 + 5 ∧
    ((60 : ℤ) ≤ 250 → invChannel 60 (invDarkness 64 64 0 0) (-5) ≤ 255) :=
  c5_inv_channel_bounds 60 (invDarkness 64 64 0 0) (-5) (by norm_num) (by norm_num)
    (by norm_num)

/-- C6: for every image pixel in `[0, 255]³` and every intensity `I ≥ 0`
(the per-pixel delta drawn by `random.randint(-I, I)` being shared by R, G
and B), each output channel of `add_noise` differs from the input channel by
at most `I` in absolute value and lies in `[0, 255]`, and the alpha channel,
when present, is passed through unchanged. -/
theorem c6_add_noise_bound (width height : ℕ) (intensity : ℤ)
    (noise : ℕ → ℕ → ℤ)
    (hnoise : ∀ i j, -intensity ≤ noise i j ∧ noise i j ≤ intensity)
    (img : ℕ → ℕ → Px) (i j : ℕ) (hi : i < width) (hj : j < height)
    (hin : (img i j).inRange) :
    |(addNoise width height noise img i j).r - (img i j).r| ≤ intensity ∧
    |(addNoise width height noise img i j).g - (img i j).g| ≤ intensity ∧
    |(addNoise width height noise img i j).b - (img i j).b| ≤ intensity ∧
    (addNoise width height noise img i j).inRange ∧
    (addNoise width height noise img i j).a = (img i j).a := by
  obtain ⟨hn1, hn2⟩ := hnoise i j
  obtain ⟨hr0, hr1, hg0, hg1, hb0, hb1⟩ := hin
  unfold addNoise
  rw [if_pos ⟨hi, hj⟩]
  unfold addNoisePx clamp255 Px.inRange
  simp only [abs_le]
  refine ⟨⟨?_, ?_⟩, ⟨?_, ?_⟩, ⟨?_, ?_⟩, ⟨?_, ?_, ?_, ?_, ?_, ?_⟩, trivial⟩ <;> omega

/-- C6 witness: the bound at a concrete 1×1 image with pixel
`(100, 200, 0, alpha 255)`, intensity 15 and drawn delta 7. -/
theorem c6_add_noise_bound_witness :
    |(addNoise 1 1 (fun _ _ => 7) (fun _ _ => ⟨100, 200, 0, some 255⟩) 0 0).r -
        ((fun (_ _ : ℕ) => (⟨100, 200, 0, some 255⟩ : Px)) 0 0).r| ≤ 15 ∧
    |(addNoise 1 1 (fun _ _ => 7) (fun _ _ => ⟨100, 200, 0, some 255⟩) 0 0).g -
        ((fun (_ _ : ℕ) => (⟨100, 200, 0, some 255⟩ : Px)) 0 0).g| ≤ 15 ∧
    |(addNoise 1 1 (fun _ _ => 7) (fun _ _ => ⟨100, 200, 0, some 255⟩) 0 0).b -
        ((fun (_ _ : ℕ) => (⟨100, 200, 0, some 255⟩ : Px)) 0 0).b| ≤ 15 ∧
    (addNoise 1 1 (fun _ _ => 7) (fun _ _ => ⟨100, 200, 0, some 255⟩) 0 0).inRange ∧
    (addNoise 1 1 (fun _ _ => 7) (fun _ _ => ⟨100, 200, 0, some 255⟩) 0 0).a =
      ((fun (_ _ : ℕ) => (⟨100, 200, 0, some 255⟩ : Px)) 0 0).a :=
  c6_add_noise_bound 1 1 15 (fun _ _ => 7) (fun _ _ => ⟨by norm_num, by norm_num⟩)
    (fun _ _ => ⟨100, 200, 0, some 255⟩) 0 0 (by norm_num) (by norm_num) (by decide)

/-- C10: `add_noise` with intensity 0 is the identity: the only delta
`random.randint(-0, 0)` can draw is 0, so every pixel whose channels are in
`[0, 255]` (as all PIL pixels are) is returned unchanged, alpha included. -/
theorem c10_add_noise_zero_identity (width height : ℕ) (noise : ℕ → ℕ → ℤ)
    (hnoise : ∀ i j, -(0 : ℤ) ≤ noise i j ∧ noise i j ≤ 0)
    (img : ℕ → ℕ → Px) (i j : ℕ) (hin : (img i j).inRange) :
    addNoise width height noise img i j = img i j := by
  obtain ⟨hr0, hr1, hg0, hg1, hb0, hb1⟩ := hin
  unfold addNoise
  split_ifs with h
  · have hz : noise i j = 0 := by have := hnoise i j; omega
    rw [hz]
    unfold addNoisePx clamp255
    ext
    · show max 0 (min 255 ((img i j).r + 0)) = (img i j).r
      omega
    · show max 0 (min 255 ((img i j).g + 0)) = (img i j).g
      omega
    · show max 0 (min 255 ((img i j).b + 0)) = (img i j).b
      omega
    · rfl
  · rfl

/-- C10 witness: intensity-0 noise leaves the concrete pixel
`(100, 200, 0, alpha 255)` of a 1×1 image unchanged. -/
theorem c10_add_noise_zero_identity_witness :
    addNoise 1 1 (fun _ _ => 0) (fun _ _ => ⟨100, 200, 0, some 255⟩) 0 0 =
      (fun (_ _ : ℕ) => (⟨100, 200, 0, some 255⟩ : Px)) 0 0 :=
  c10_add_noise_zero_identity 1 1 (fun _ _ => 0)
    (fun _ _ => ⟨by norm_num, by norm_num⟩)
    (fun _ _ => ⟨100, 200, 0, some 255⟩) 0 0 (by decide)

/-- C2 (counterexample): the polygon list of `draw_building_silhouette` has
`k + 4` points, not `k + 3`: for the drawn-in-range segment count `k = 3`
(with concrete coordinates) the list has 7 points, and `3 + 3 = 6 ≠ 7`.
The list is `(x, base_y)`, `(x, top_y)`, the `k + 1` roofline points, and
the closing `(x + width, base_y)`. -/
theorem c2_point_count_counterexample :
    (silhouettePoints 0 30 600 550 3 (fun _ => 540)).length = 3 + 4 ∧
    (silhouettePoints 0 30 600 550 3 (fun _ => 540)).length ≠ 3 + 3 := by
  constructor
  · rfl
  · intro h
    rw [show (silhouettePoints 0 30 600 550 3 (fun _ => 540)).length = 7 from rfl] at h
    omega

/-- C2 (amended): for every segment count `k` drawn in `[3, 8]` and
non-negative building width, the polygon filled by
`draw_building_silhouette` has exactly `k + 4` points (`k + 1` roofline
points plus the two left-edge points and the closing base point), and its
x-coordinates are non-decreasing from the left edge to the right edge. -/
theorem c2_silhouette_polygon (x width baseY topY : ℚ) (k : ℕ) (segY : ℕ → ℚ)
    (hk3 : 3 ≤ k) (hk8 : k ≤ 8) (hw : 0 ≤ width) :
    (silhouettePoints x width baseY topY k segY).length = k + 4 ∧
    List.Chain' (fun p q : ℚ × ℚ => p.1 ≤ q.1)
      (silhouettePoints x width baseY topY k segY) := by
  have hk0 : (k : ℚ) ≠ 0 := Nat.cast_ne_zero.mpr (by omega)
  have hs : 0 ≤ width / (k : ℚ) := div_nonneg hw (by positivity)
  have hks : (k : ℚ) * (width / (k : ℚ)) = width := by
    rw [← mul_div_assoc]
    exact mul_div_cancel_left₀ width hk0
  constructor
  · simp only [silhouettePoints, List.length_append, List.length_map,
      List.length_range, List.length_cons, List.length_nil]
    omega
  · haveI : IsTrans (ℚ × ℚ) (fun p q : ℚ × ℚ => p.1 ≤ q.1) :=
      ⟨fun _ _ _ h1 h2 => le_trans h1 h2⟩
    rw [List.chain'_iff_pairwise]
    unfold silhouettePoints
    rw [List.append_assoc]
    refine List.pairwise_append.mpr ⟨?_, List.pairwise_append.mpr ⟨?_, ?_, ?_⟩, ?_⟩
    · simp only [List.pairwise_cons, List.mem_singleton, List.Pairwise.nil]
      exact ⟨fun p hp => by rw [hp], by simp⟩
    · refine List.pairwise_map.mpr ?_
      refine (List.pairwise_lt_range (k + 1)).imp ?_
      intro i j hij
      have : (i : ℚ) ≤ (j : ℚ) := by exact_mod_cast hij.le
      exact add_le_add_left (mul_le_mul_of_nonneg_right this hs) x
    · simp
    · intro a ha b hb
      simp only [List.mem_singleton] at hb
      obtain ⟨i, hi, rfl⟩ := List.mem_map.mp ha
      rw [hb]
      have hik : (i : ℚ) ≤ (k : ℚ) := by
        exact_mod_cast Nat.lt_succ_iff.mp (List.mem_range.mp hi)
      calc x + (i : ℚ) * (width / (k : ℚ))
          ≤ x + (k : ℚ) * (width / (k : ℚ)) :=
            add_le_add_left (mul_le_mul_of_nonneg_right hik hs) x
        _ = x + width := by rw [hks]
    · intro a ha b hb
      simp only [List.mem_cons, List.not_mem_nil, or_false] at ha
      have hax : a.1 = x := by
        rcases ha with rfl | rfl <;> rfl
      rw [hax]
      rcases List.mem_append.mp hb with h | h
      · obtain ⟨i, _, rfl⟩ := List.mem_map.mp h
        have : 0 ≤ (i : ℚ) * (width / (k : ℚ)) := by positivity
        linarith
      · rw [List.mem_singleton.mp h]
        show x ≤ x + width
        linarith

/-- C2 witness: the amended statement at the concrete silhouette
`x = 0`, `width = 30`, baseline 600, roof top 550, segment count 3, all
roofline offsets at 540. -/
theorem c2_silhouette_polygon_witness :
    (silhouettePoints 0 30 600 550 3 (fun _ => 540)).length = 3 + 4 ∧
    List.Chain' (fun p q : ℚ × ℚ => p.1 ≤ q.1)
      (silhouettePoints 0 30 600 550 3 (fun _ => 540)) :=
  c2_silhouette_polygon 0 30 600 550 3 (fun _ => 540) (by norm_num) (by norm_num)
    (by norm_num)

/-- C3 (counterexample): the claim "the last row equals colorB with each
channel within ±1" fails for small heights: a vertical gradient of height 2
from `(255, 255, 255)` to `(0, 0, 0)` has last row
`int(255 * 0.5) = 127` per channel, which is 127 away from colorB. -/
theorem c3_boundary_counterexample :
    createGradient 1 2 (255, 255, 255) (0, 0, 0) "vertical" 0 (2 - 1) =
      (127, 127, 127) ∧
    ¬ colorClose (createGradient 1 2 (255, 255, 255) (0, 0, 0) "vertical" 0 (2 - 1))
      (0, 0, 0) := by
  constructor
  · rw [createGradient_vertical]
    rfl
  · rw [createGradient_vertical]
    decide

/-- C3 (amended): the first row (vertical) / first column (horizontal) of
`create_gradient` equals colorA exactly; the last row/column is within ±1
of colorB per channel *provided* each channel of `|colorA - colorB|` is at
most the line count (`height` resp. `width`) — in general the last line is
`colorB + ⌊(colorA - colorB) / N⌋`, so for small canvases it can be far from
colorB (the loop ratio only reaches `(N-1)/N`, never 1). -/
theorem c3_gradient_boundary (width height : ℕ) (c1 c2 : ℕ × ℕ × ℕ) (x y : ℕ)
    (hh : 0 < height) (hw : 0 < width) :
    (createGradient width height c1 c2 "vertical" x 0 = c1 ∧
     createGradient width height c1 c2 "horizontal" 0 y = c1) ∧
    (colorDiffLe c1 c2 height →
      colorClose (createGradient width height c1 c2 "vertical" x (height - 1)) c2) ∧
    (colorDiffLe c1 c2 width →
      colorClose (createGradient width height c1 c2 "horizontal" (width - 1) y) c2) := by
  refine ⟨⟨?_, ?_⟩, ?_, ?_⟩
  · rw [createGradient_vertical, gradChan_zero _ _ _ hh, gradChan_zero _ _ _ hh,
      gradChan_zero _ _ _ hh]
  · rw [createGradient_horizontal, gradChan_zero _ _ _ hw, gradChan_zero _ _ _ hw,
      gradChan_zero _ _ _ hw]
  · intro hd
    obtain ⟨⟨h11, h12⟩, ⟨h21, h22⟩, h31, h32⟩ := hd
    rw [createGradient_vertical]
    unfold colorClose
    exact ⟨gradChan_last _ _ _ hh h11 h12, gradChan_last _ _ _ hh h21 h22,
      gradChan_last _ _ _ hh h31 h32⟩
  · intro hd
    obtain ⟨⟨h11, h12⟩, ⟨h21, h22⟩, h31, h32⟩ := hd
    rw [createGradient_horizontal]
    unfold colorClose
    exact ⟨gradChan_last _ _ _ hw h11 h12, gradChan_last _ _ _ hw h21 h22,
      gradChan_last _ _ _ hw h31 h32⟩

/-- C3 witness: the amended boundary law at the concrete 4×4 gradient from
`(10, 20, 30)` to `(12, 19, 30)` (all channel differences ≤ 4). -/
theorem c3_gradient_boundary_witness :
    (createGradient 4 4 (10, 20, 30) (12, 19, 30) "vertical" 0 0 = (10, 20, 30) ∧
     createGradient 4 4 (10, 20, 30) (12, 19, 30) "horizontal" 0 0 = (10, 20, 30)) ∧
    colorClose (createGradient 4 4 (10, 20, 30) (12, 19, 30) "vertical" 0 (4 - 1))
      (12, 19, 30) ∧
    colorClose (createGradient 4 4 (10, 20, 30) (12, 19, 30) "horizontal" (4 - 1) 0)
      (12, 19, 30) := by
  have h := c3_gradient_boundary 4 4 (10, 20, 30) (12, 19, 30) 0 0 (by norm_num)
    (by norm_num)
  exact ⟨h.1, h.2.1 (by decide), h.2.2 (by decide)⟩

/-- C9: for each interior row `y ∈ [5, height - 5)` of the 200×40 brush
stroke and each jitter `jit ∈ [-20, 20]` drawn by `random.randint(-20, 20)`,
the span's alpha equals `int(220 · wave) + jit` clamped to `[0, 255]`, where
`wave = sin((y / height) · π) · 0.3 + 0.7`; moreover on interior rows the
clamp never actually clips (the value already lies in `[0, 255]`, because
`wave ∈ [0.7, 1]` there). -/
theorem c9_brush_alpha (y : ℕ) (jit : ℤ) (hy5 : 5 ≤ y) (hy35 : y < 40 - 5)
    (hj1 : -20 ≤ jit) (hj2 : jit ≤ 20) :
    brushAlpha y jit =
      max 0 (min 255
        (⌊(220 : ℝ) * (Real.sin ((y : ℝ) / 40 * Real.pi) * 0.3 + 0.7)⌋ + jit)) ∧
    brushAlpha y jit = ⌊(220 : ℝ) * brushWave y⌋ + jit ∧
    0 ≤ brushAlpha y jit ∧ brushAlpha y jit ≤ 255 := by
  have hy40 : (y : ℝ) ≤ 40 := by
    have h : y ≤ 40 := by omega
    exact_mod_cast h
  have hπ : (0 : ℝ) < Real.pi := Real.pi_pos
  have harg0 : 0 ≤ (y : ℝ) / 40 * Real.pi := by positivity
  have harg1 : (y : ℝ) / 40 * Real.pi ≤ Real.pi := by
    have h1 : (y : ℝ) / 40 ≤ 1 := by
      rw [div_le_one (by norm_num)]
      exact hy40
    calc (y : ℝ) / 40 * Real.pi ≤ 1 * Real.pi :=
          mul_le_mul_of_nonneg_right h1 hπ.le
      _ = Real.pi := one_mul _
  have hsin0 : 0 ≤ Real.sin ((y : ℝ) / 40 * Real.pi) :=
    Real.sin_nonneg_of_nonneg_of_le_pi harg0 harg1
  have hsin1 : Real.sin ((y : ℝ) / 40 * Real.pi) ≤ 1 := Real.sin_le_one _
  have hw0 : (0.7 : ℝ) ≤ brushWave y := by
    unfold brushWave
    nlinarith
  have hw1 : brushWave y ≤ 1 := by
    unfold brushWave
    nlinarith
  have hf1 : (154 : ℤ) ≤ ⌊(220 : ℝ) * brushWave y⌋ := by
    rw [Int.le_floor]
    push_cast
    nlinarith
  have hf2 : ⌊(220 : ℝ) * brushWave y⌋ ≤ 220 := by
    have h220 : (220 : ℝ) * brushWave y ≤ (220 : ℝ) := by nlinarith
    calc ⌊(220 : ℝ) * brushWave y⌋ ≤ ⌊(220 : ℝ)⌋ := Int.floor_le_floor h220
      _ = 220 := by norm_num
  refine ⟨rfl, ?_, ?_, ?_⟩
  · unfold brushAlpha
    omega
  · unfold brushAlpha
    omega
  · unfold brushAlpha
    omega

/-- C9 witness: the alpha law at the concrete interior row `y = 20` with
jitter 0. -/
theorem c9_brush_alpha_witness :
    brushAlpha 20 0 = ⌊(220 : ℝ) * brushWave 20⌋ + 0 ∧
    0 ≤ brushAlpha 20 0 ∧ brushAlpha 20 0 ≤ 255 := by
  have h := c9_brush_alpha 20 0 (by norm_num) (by norm_num) (by norm_num)
    (by norm_num)
  exact ⟨h.2.1, h.2.2⟩

end CreateAssets
